import Mathlib

/-!
Shallow embedding of the careBT behavior-tree runtime (careBT/carebt) in
Lean 4, covering the tick engine of `SequenceNode`, the parameter binding and
contingency dispatch of `ControlNode`, the status/timer machinery of
`TreeNode` and the throttled tick of `ActionNode`.

Naming note.  The sources mix two naming generations of the same methods:
`sequenceNode.py` calls `_internal_tick_child`, `_internal_bind_in_params`,
`_internal_bind_out_params` and `_internal_apply_contingencies`, while
`controlNode.py` defines the same operations as `_tick_child`,
`_bind_in_params`, `_bind_out_params` and `_apply_contingencies`; likewise
`get_message`/`set_message` (controlNode.py) and
`get_contingency_message`/`set_contingency_message` (treeNode.py) access the
same field.  The embedding uses one definition per operation and notes the
source location of its body.
-/

namespace CareBT

/-- Modelled from the spec: the `NodeStatus` enumeration of
`carebt/nodeStatus.py`, which is not among the provided sources.  The spec
(section 3) lists exactly seven mutually exclusive variants. -/
inductive NodeStatus where
  | IDLE
  | RUNNING
  | SUSPENDED
  | SUCCESS
  | FAILURE
  | FIXED
  | ABORTED
deriving DecidableEq, Repr

/-- The four statuses that `TreeNode.set_status` (treeNode.py lines 221-224)
treats as terminal: it cancels the timeout timer on them. -/
def NodeStatus.isTerminal : NodeStatus → Bool
  | .SUCCESS => true
  | .FAILURE => true
  | .FIXED => true
  | .ABORTED => true
  | _ => false

/-- State owned by `TreeNode` (treeNode.py): the node status
(`__node_status`), the contingency message (`__contingency_message`) and
whether a timeout timer is currently pending (`__timeout_timer is not
None`). -/
structure NodeCore where
  status : NodeStatus
  message : String
  timerPending : Bool
deriving DecidableEq, Repr

/-- Embeds `TreeNode.cancel_timeout_timer` (treeNode.py lines 191-204): the
pending timer, if any, is cancelled and dropped. -/
def cancel_timeout_timer (c : NodeCore) : NodeCore :=
  { c with timerPending := false }

/-- Embeds `TreeNode.set_status` (treeNode.py lines 206-225): store the new
status and, when it is `SUCCESS`, `FAILURE`, `FIXED` or `ABORTED`, cancel the
timeout timer. -/
def set_status (c : NodeCore) (s : NodeStatus) : NodeCore :=
  let c2 : NodeCore := { c with status := s }
  if s = .SUCCESS ∨ s = .FAILURE ∨ s = .FIXED ∨ s = .ABORTED then
    cancel_timeout_timer c2
  else
    c2

/-- Embeds `TreeNode.set_contingency_message` (treeNode.py lines 243-257);
`set_message` in controlNode.py names the same operation. -/
def set_contingency_message (c : NodeCore) (m : String) : NodeCore :=
  { c with message := m }

/-! ## Parameter slots and binding (controlNode.py, treeNode.py) -/

/-- A Python value as it occurs in careBT parameter slots and call-parameter
lists: `None`, an integer, a string, or a boolean. -/
inductive PyVal where
  | vnone
  | pint (n : Int)
  | pstr (s : String)
  | pbool (b : Bool)
deriving DecidableEq, Repr

/-- The dynamically created attributes of a node instance (treeNode.py lines
61-71 create one per declared parameter, initialised to `None`).  An absent
name models an attribute that was never created: reading it raises
`AttributeError`. -/
abbrev Slots := List (String × PyVal)

/-- Reading an attribute: the most recent binding for the name, if any. -/
def slotGet (σ : Slots) (nm : String) : Option PyVal :=
  (σ.find? (fun p => p.1 == nm)).map (·.2)

/-- Writing an attribute (`setattr`): unconditional, creating it if needed. -/
def slotSet (σ : Slots) (nm : String) (v : PyVal) : Slots :=
  (nm, v) :: σ

/-- Embeds the Python idiom `var.replace(chr, chr2, 1)` used by the binding
code: replace the first occurrence of `?` by an underscore
(e.g. controlNode.py lines 64 and 67). -/
def replaceFirstQChars : List Char → List Char
  | [] => []
  | c :: t => if c = '?' then '_' :: t else c :: replaceFirstQChars t

/-- The attribute name backing a sigil-prefixed parameter name. -/
def pyAttrName (s : String) : String :=
  ⟨replaceFirstQChars s.data⟩

/-- Resolution of one call argument (controlNode.py lines 62-65): a string
whose first character is `?` names a slot of the parent, which is read
(`getattr`, raising `AttributeError` when absent — `none` here); an empty
string would raise `IndexError` on `var[0]`; every other value is a
literal. -/
def resolveArg (parent : Slots) (v : PyVal) : Option PyVal :=
  match v with
  | .pstr s =>
    match s.data with
    | [] => none
    | c :: _ => if c = '?' then slotGet parent (pyAttrName s) else some (.pstr s)
  | v => some v

/-- The loop of `ControlNode._bind_in_params` (controlNode.py lines 62-67):
`for i, var in enumerate(call_in_params)` walks the call arguments while
`get_in_params()[i]` addresses the declaration at the same position, so the
two lists are consumed together; exhausting the declaration first raises
`IndexError` (`none` here).  Each resolved value is assigned to the child's
slot named by the declaration with the sigil replaced. -/
def bindInLoop (parent : Slots) : List String → List PyVal → Slots → Option Slots
  | _, [], child => some child
  | [], _ :: _, _ => none
  | d :: ds, a :: as2, child =>
    match resolveArg parent a with
    | none => none
    | some v => bindInLoop parent ds as2 (slotSet child (pyAttrName d) v)

/-- Embeds `ControlNode._bind_in_params` (controlNode.py lines 56-67), called
`_internal_bind_in_params` from sequenceNode.py: the `Bool` is the arity
warning (`len(call_in_params) != len(get_in_params())`), the `Option Slots`
the child's slots after the positional loop (`none` models an uncaught
exception). -/
def bind_in_params (parent child : Slots) (decl : List String)
    (args : List PyVal) : Bool × Option Slots :=
  (args.length != decl.length, bindInLoop parent decl args child)

/-- Warnings emitted by `ControlNode._bind_out_params`, tagged with the
position of the declared output that produced them. -/
inductive BindWarning where
  | unsetOutput (i : Nat)
  | outputNotProvided (i : Nat)
deriving DecidableEq, Repr

/-- The loop of `ControlNode._bind_out_params` (controlNode.py lines 70-83):
for the declared output at position `i`, read the child's slot (`getattr`,
`none` when the attribute is absent); on `None` warn that the output is not
set and leave the parent alone; when `len(call_out_params) <= i` warn that the
output is not provided and discard it; otherwise write the value into the
parent's slot named by the call-parameter at position `i`. -/
def bindOutLoop (childSlots : Slots) (callOut : List String) :
    List String → Nat → Slots → List BindWarning → Option (Slots × List BindWarning)
  | [], _, parent, ws => some (parent, ws.reverse)
  | d :: ds, i, parent, ws =>
    match slotGet childSlots (pyAttrName d) with
    | none => none
    | some v =>
      if v = .vnone then
        bindOutLoop childSlots callOut ds (i + 1) parent (.unsetOutput i :: ws)
      else
        match callOut[i]? with
        | none => bindOutLoop childSlots callOut ds (i + 1) parent (.outputNotProvided i :: ws)
        | some co => bindOutLoop childSlots callOut ds (i + 1) (slotSet parent (pyAttrName co) v) ws

/-- Embeds `ControlNode._bind_out_params` (controlNode.py lines 69-83), called
`_internal_bind_out_params` from sequenceNode.py. -/
def bind_out_params (parent childSlots : Slots) (declOut : List String)
    (callOut : List String) : Option (Slots × List BindWarning) :=
  bindOutLoop childSlots callOut declOut 0 parent []

/-- Modelled from the spec: the behaviour described by the sentence "binding
proceeds positionally over the shorter list" — bind exactly
`min (decl.length) (args.length)` positions and succeed.  This definition
follows the words of the spec and is compared against `bind_in_params`, which
is translated from the source. -/
def specBindInShorter (parent child : Slots) (decl : List String)
    (args : List PyVal) : Option Slots :=
  (decl.zip args).foldlM
    (fun ch p => (resolveArg parent p.2).map (fun v => slotSet ch (pyAttrName p.1) v))
    child

/-! ## Wildcard matching and contingency-handler dispatch (controlNode.py) -/

/-- Suffixes of `s` reachable by letting `.*` consume zero or more leading
characters, none of which may be a newline (Python `.` does not match a
newline). -/
def starSuffixes : List Char → List (List Char)
  | [] => [[]]
  | c :: s2 => (c :: s2) :: (if c = '\n' then [] else starSuffixes s2)

/-- Embeds the composition of `ControlNode.__wildcard_to_regex`
(controlNode.py lines 49-54: `?` becomes `.`, `*` becomes `.*`) with
`re.match` (controlNode.py lines 120-124), which anchors the compiled pattern
at the start of the string only, so a match may leave a suffix of the string
unconsumed.  `.` in Python matches any character except a newline; `.*`
consumes any run of such characters, rendered here by trying every suffix in
`starSuffixes`.  The rendering is faithful for patterns whose remaining
characters are not regex metacharacters. -/
def globCharsMatch : List Char → List Char → Bool
  | [], _ => true
  | '*' :: p, s => (starSuffixes s).any (fun s2 => globCharsMatch p s2)
  | '?' :: p, s =>
    (match s with
     | [] => false
     | c :: s2 => c ≠ '\n' && globCharsMatch p s2)
  | c :: p, s =>
    (match s with
     | [] => false
     | c2 :: s2 => c = c2 && globCharsMatch p s2)

/-- Whether the wildcard string `w` matches the string `s` under the source's
conventions (see `globCharsMatch`). -/
def wildcardMatches (w s : String) : Bool :=
  globCharsMatch w.data s.data

/-- One entry of `ControlNode._contingency_handler_list` (controlNode.py lines
138-146): the class (stored by the matcher as its `__name__`) or wildcard
string, the status list, the message wildcard and the symbolic name of the
handler function. -/
structure ContingencyHandlerEntry where
  classPattern : String
  statuses : List NodeStatus
  messagePattern : String
  funcName : String
deriving DecidableEq, Repr

/-- The match test of `ControlNode._apply_contingencies` (controlNode.py lines
120-124): the class pattern matches the child's class name, the child's
current status is in the status list, and the message pattern matches the
child's contingency message. -/
def contingencyHandlerMatches (h : ContingencyHandlerEntry) (cls : String)
    (st : NodeStatus) (msg : String) : Bool :=
  wildcardMatches h.classPattern cls && decide (st ∈ h.statuses) &&
    wildcardMatches h.messagePattern msg

/-- Embeds the loop of `ControlNode._apply_contingencies` (controlNode.py
lines 96-134), called `_internal_apply_contingencies` from sequenceNode.py:
iterate the registrations in insertion order; on the first whose test passes,
execute the stored handler name and `break`.  Returns the name of the invoked
handler, if any. -/
def apply_contingencies (hs : List ContingencyHandlerEntry) (cls : String)
    (st : NodeStatus) (msg : String) : Option String :=
  match hs with
  | [] => none
  | h :: t =>
    if contingencyHandlerMatches h cls st msg then some h.funcName
    else apply_contingencies t cls st msg

/-! ## ActionNode: throttled tick (actionNode.py) -/

/-- State of an `ActionNode` (actionNode.py lines 26-33): the `TreeNode`
core, the optional throttle interval (`__throttle_ms`) and the timestamp of
the last completed `on_tick` invocation (`__last_ts`).  Time is modelled in
integer milliseconds; `datetime.min` becomes a very small integer.  The
source compares `int((current_ts - last_ts).total_seconds() * 1000)` with the
throttle: the truncation only lowers the elapsed value, so the integer model
is exact on whole milliseconds and conservative otherwise. -/
structure ActionState where
  core : NodeCore
  throttleMs : Option Int
  lastTs : Int
deriving DecidableEq, Repr

/-- Embeds `ActionNode._on_tick` (actionNode.py lines 37-47): when no
throttle is set or the throttle interval has elapsed since `__last_ts`, and
the status is `IDLE` or `RUNNING`, run the user `on_tick` (modelled by
`userTick`, which may set status and message) and record the current
timestamp; otherwise do nothing.  The returned `Bool` reports whether the
user `on_tick` ran. -/
def action_on_tick (userTick : NodeCore → NodeCore) (now : Int)
    (s : ActionState) : ActionState × Bool :=
  let pass : Bool :=
    match s.throttleMs with
    | none => true
    | some t => decide (t ≤ now - s.lastTs)
  if pass then
    if s.core.status = .IDLE ∨ s.core.status = .RUNNING then
      ({ s with core := userTick s.core, lastTs := now }, true)
    else (s, false)
  else (s, false)

/-- Timestamps at which the user `on_tick` actually ran, over a list of
engine ticks arriving at the given times. -/
def action_run_times (userTick : NodeCore → NodeCore) (s : ActionState) :
    List Int → List Int
  | [] => []
  | t :: ts =>
    let r := action_on_tick userTick t s
    if r.2 then t :: action_run_times userTick r.1 ts
    else action_run_times userTick r.1 ts

/-! ## SequenceNode: tick engine (sequenceNode.py, controlNode.py) -/

/-- An `ExecutionContext` entry of `_child_ec_list` (spec §3 child
descriptor; `carebt/executionContext.py` is not among the provided sources,
its fields are modelled from the spec and their uses in controlNode.py and
sequenceNode.py): the child node class together with its declared parameters,
the parent's call-parameter expressions, and — modelling the user-supplied
leaf `on_tick` — the status, message and output values the child produces
when ticked. -/
structure ChildSpec where
  className : String
  inParams : List String
  outParams : List String
  callInParams : List PyVal
  callOutParams : List String
  tickStatus : NodeStatus
  tickMessage : String
  outVals : List PyVal
deriving DecidableEq, Repr

/-- The live child instance held by the descriptor at the cursor
(`_child_ec_list[_child_ptr].instance`): its status, contingency message and
parameter slots. -/
structure ChildInst where
  status : NodeStatus
  message : String
  slots : Slots
deriving DecidableEq, Repr

/-- State of a `SequenceNode`: the `TreeNode` core, the cursor `_child_ptr`,
the child descriptor list `_child_ec_list`, the instance of the current child
(`none` when not constructed; by invariant 4 of the spec only the cursor's
child may be live), and the parent's own parameter slots. -/
structure SeqState where
  core : NodeCore
  ptr : Nat
  children : List ChildSpec
  inst : Option ChildInst
  slots : Slots
deriving DecidableEq, Repr

/-- Observable lifecycle events of one child, indexed by its list position:
construction (instantiation, input binding, `on_init`), a tick of the child,
and destruction (`on_delete`, dropping the instance). -/
inductive SeqEvent where
  | create (i : Nat)
  | tick (i : Nat)
  | delete (i : Nat)
deriving DecidableEq, Repr

/-- Attribute slots of a freshly constructed child: treeNode.py lines 61-71
create one attribute per declared parameter, initialised to `None`. -/
def childInitSlots (sp : ChildSpec) : Slots :=
  (sp.inParams ++ sp.outParams).map (fun p => (pyAttrName p, PyVal.vnone))

/-- Construction of the current child (sequenceNode.py lines 71-76): create
the node instance (an action leaf starts `IDLE` with empty message), bind the
input parameters (`_internal_bind_in_params`), call `on_init` (a no-op for
the modelled leaf).  `none` models an uncaught exception from input
binding. -/
def createChild (parentSlots : Slots) (sp : ChildSpec) : Option ChildInst :=
  match (bind_in_params parentSlots (childInitSlots sp) sp.inParams sp.callInParams).2 with
  | none => none
  | some cs => some { status := .IDLE, message := "", slots := cs }

/-- Slots of the child after its user `on_tick` wrote the scripted output
values into the declared output attributes. -/
def childTickSlots (sp : ChildSpec) (σ : Slots) : Slots :=
  (sp.outParams.zip sp.outVals).foldl (fun acc pv => slotSet acc (pyAttrName pv.1) pv.2) σ

/-- Embeds `ControlNode._tick_child` (controlNode.py lines 87-94, called
`_internal_tick_child` from sequenceNode.py) composed with the leaf child's
`ActionNode._on_tick` (actionNode.py lines 37-47; no throttle is set on the
modelled child) and the modelled user `on_tick`: when the child status is
`IDLE` or `RUNNING` the child runs, taking its scripted status, message and
output values; otherwise nothing happens.  The `Bool` reports whether the
child was ticked. -/
def tickChildInst (sp : ChildSpec) (c : ChildInst) : ChildInst × Bool :=
  if c.status = .IDLE ∨ c.status = .RUNNING then
    ({ status := sp.tickStatus, message := sp.tickMessage,
       slots := childTickSlots sp c.slots }, true)
  else (c, false)

/-- Embeds the terminal cleanup block of `SequenceNode._internal_on_tick`
(sequenceNode.py lines 116-123): when the own status is `SUCCESS`, `FAILURE`,
`ABORTED` or `FIXED`, release the instance at the cursor if still present
(`on_delete`, then drop it).  Line 121 indexes `_child_ec_list[_child_ptr]`,
so a cursor outside the list raises `IndexError` (`none`). -/
def seqFinalBlock (s : SeqState) (ev : List SeqEvent) :
    Option (SeqState × List SeqEvent) :=
  if s.core.status = .SUCCESS ∨ s.core.status = .FAILURE ∨
      s.core.status = .ABORTED ∨ s.core.status = .FIXED then
    match s.children[s.ptr]? with
    | none => none
    | some _ =>
      match s.inst with
      | none => some (s, ev)
      | some _ => some ({ s with inst := none }, ev ++ [SeqEvent.delete s.ptr])
  else some (s, ev)

/-- Embeds the decision part of `SequenceNode._internal_on_tick`
(sequenceNode.py lines 83-123), entered right after the contingency handlers
ran: when the own status is still `RUNNING` and the current child is live,
propagate `FAILURE`/`ABORTED` (lines 88-93: adopt the status, copy the
message); on `SUCCESS`/`FIXED` (lines 95-114) remember the child's message,
bind the outputs unless the status is `FIXED` (lines 101-104), release the
child (lines 105-107) and either advance the cursor or — with no child left —
finish with `SUCCESS` and the remembered message (lines 108-114); finally run
the terminal cleanup block (lines 116-123). -/
def seqTickPost (s : SeqState) : Option (SeqState × List SeqEvent) :=
  if s.core.status = .RUNNING then
    match s.children[s.ptr]? with
    | none => none
    | some sp =>
      match s.inst with
      | none => seqFinalBlock s []
      | some c =>
        let s1 : SeqState :=
          if c.status = .FAILURE ∨ c.status = .ABORTED then
            { s with core := set_contingency_message (set_status s.core c.status) c.message }
          else s
        if c.status = .SUCCESS ∨ c.status = .FIXED then
          let lastMsg := c.message
          let pslots : Option Slots :=
            if c.status ≠ .FIXED then
              (bind_out_params s1.slots c.slots sp.outParams sp.callOutParams).map (·.1)
            else some s1.slots
          match pslots with
          | none => none
          | some ps =>
            let s2 : SeqState := { s1 with slots := ps, inst := none }
            let s3 : SeqState :=
              if s2.ptr + 1 < s2.children.length then { s2 with ptr := s2.ptr + 1 }
              else { s2 with core := set_contingency_message (set_status s2.core .SUCCESS) lastMsg }
            seqFinalBlock s3 [SeqEvent.delete s1.ptr]
        else seqFinalBlock s1 []
  else seqFinalBlock s []

/-- Embeds `SequenceNode._internal_on_tick` (sequenceNode.py lines 60-123):
set the own status to `RUNNING` if it differs (lines 62-63); return when the
child list is empty (lines 65-67); construct the current child if it has no
instance (lines 69-76); tick it and apply the contingency handlers (lines
78-80) — the parameter `d` is the combined effect of
`_internal_apply_contingencies` together with whatever the matched handler
does, and `d = id` renders an empty handler list; then decide how to proceed
(`seqTickPost`).  `none` models an uncaught exception. -/
def seqTick (d : SeqState → SeqState) (s0 : SeqState) :
    Option (SeqState × List SeqEvent) :=
  let s : SeqState :=
    if s0.core.status ≠ .RUNNING then { s0 with core := set_status s0.core .RUNNING }
    else s0
  if s.children.length = 0 then some (s, [])
  else
    match s.children[s.ptr]? with
    | none => none
    | some sp =>
      let created : Option (ChildInst × List SeqEvent) :=
        match s.inst with
        | some c => some (c, [])
        | none => (createChild s.slots sp).map (fun c => (c, [SeqEvent.create s.ptr]))
      match created with
      | none => none
      | some (c0, ev1) =>
        let tc := tickChildInst sp c0
        let ev2 : List SeqEvent := if tc.2 then [SeqEvent.tick s.ptr] else []
        let s3 := d { s with inst := some tc.1 }
        match seqTickPost s3 with
        | none => none
        | some (s4, ev3) => some (s4, ev1 ++ ev2 ++ ev3)

/-- Embeds `ControlNode.fix_current_child` (controlNode.py lines 148-150):
set the current child instance's status to `FIXED` and its contingency
message to the empty string.  Indexing `_child_ec_list[_child_ptr]` raises
`IndexError` out of range, and a `None` instance raises `AttributeError`
(`none` here). -/
def fix_current_child (s : SeqState) : Option SeqState :=
  match s.children[s.ptr]? with
  | none => none
  | some _ =>
    match s.inst with
    | none => none
    | some c => some { s with inst := some { c with status := .FIXED, message := "" } }

/-- Initial state of a sequence whose children are `cs` and whose own slots
are `σ`: `ControlNode.__init__` (controlNode.py lines 31-42) starts with an
empty cursor at 0, no live instance, and status `IDLE`. -/
def seqInit (cs : List ChildSpec) (σ : Slots) : SeqState :=
  { core := { status := .IDLE, message := "", timerPending := false },
    ptr := 0, children := cs, inst := none, slots := σ }

/-- Repeated internal ticks of the sequence, concatenating the emitted
events. -/
def seqRun (d : SeqState → SeqState) : Nat → SeqState → Option (SeqState × List SeqEvent)
  | 0, s => some (s, [])
  | n + 1, s =>
    match seqTick d s with
    | none => none
    | some (s1, ev) =>
      match seqRun d n s1 with
      | none => none
      | some (s2, ev2) => some (s2, ev ++ ev2)

/-- Mid-run shape of a sequence that is between children: status `IDLE` (not
yet ticked) or `RUNNING`, cursor at `k`, child list unchanged, no live
instance. -/
def SeqMid (cs : List ChildSpec) (k : Nat) (s : SeqState) : Prop :=
  (s.core.status = .IDLE ∨ s.core.status = .RUNNING) ∧
  s.ptr = k ∧ s.children = cs ∧ s.inst = none

/-- The expected event trace of the first `k` internal ticks of an
all-successful sequence: child `i` is constructed, ticked and destroyed, in
list order. -/
def seqExpectedTrace (k : Nat) : List SeqEvent :=
  (List.range k).flatMap (fun i => [.create i, .tick i, .delete i])

/-! ## Abort and timeout (treeNode.py, actionNode.py, sequenceNode.py) -/

/-- Embeds `TreeNode._internal_on_abort` (treeNode.py lines 90-91), the
implementation reached by `TreeNode.abort` (treeNode.py lines 259-266) on
every node class that does not override `_internal_on_abort`: it only cancels
the timeout timer.  In these sources `ActionNode` defines a method named
`_on_abort` (actionNode.py lines 49-53) which nothing invokes, so an
`ActionNode` reaches this base implementation. -/
def tree_internal_on_abort (c : NodeCore) : NodeCore :=
  cancel_timeout_timer c

/-- The effect of `abort()` on an `ActionNode` of these sources: the dynamic
dispatch of `self._internal_on_abort()` finds no override on `ActionNode`, so
the `TreeNode` base implementation runs; throttle and timestamp are
untouched, and neither `on_abort` nor `_on_abort` is invoked. -/
def action_abort (s : ActionState) : ActionState :=
  { s with core := tree_internal_on_abort s.core }

/-- Embeds `TreeNode.__internal_on_timeout` (treeNode.py lines 76-82)
composed with the default `TreeNode.on_timeout` (treeNode.py lines 123-134)
on an `ActionNode`: when the status is `RUNNING` or `SUSPENDED`, run
`on_timeout` — which logs a warning, calls `abort()` and then sets the
contingency message to `"TIMEOUT"` — and afterwards cancel the timer. -/
def action_internal_on_timeout (s : ActionState) : ActionState :=
  let s1 : ActionState :=
    if s.core.status = .RUNNING ∨ s.core.status = .SUSPENDED then
      let sa := action_abort s
      { sa with core := set_contingency_message sa.core "TIMEOUT" }
    else s
  { s1 with core := cancel_timeout_timer s1.core }

/-- Embeds `SequenceNode._internal_on_abort` (sequenceNode.py lines 125-138):
cancel the own timer (`super()`), abort the current child if it is `RUNNING`
or `SUSPENDED` (the child, an action leaf, again reaches only the `TreeNode`
base implementation, which cancels the child's timer — not modelled on
`ChildInst` — and nothing else), set the own status to `ABORTED`, copy the
child's contingency message, release the child, and call the user `on_abort`
(a no-op by default).  Line 129 reads `.instance.get_status()`, raising
`AttributeError` when the instance is `None` (`none` here); line 129 also
indexes `_child_ec_list[_child_ptr]`. -/
def seq_internal_on_abort (s : SeqState) : Option SeqState :=
  let core1 := cancel_timeout_timer s.core
  match s.children[s.ptr]? with
  | none => none
  | some _ =>
    match s.inst with
    | none => none
    | some c =>
      some { s with
        core := (set_contingency_message (set_status core1 .ABORTED) c.message),
        inst := none }

/-! ## Theorems -/

/-- C6: for every node, assigning a terminal status (`SUCCESS`, `FAILURE`,
`FIXED`, `ABORTED`) via `set_status` cancels a pending timeout timer, while
assigning `RUNNING` or `SUSPENDED` leaves the timer as it was; in all cases
the stored status is the assigned one and the contingency message is
untouched. -/
theorem set_status_timer_cancellation (c : NodeCore) (s : NodeStatus) :
    (set_status c s).status = s ∧
    (set_status c s).message = c.message ∧
    (s.isTerminal = true → (set_status c s).timerPending = false) ∧
    (s = .RUNNING ∨ s = .SUSPENDED →
      (set_status c s).timerPending = c.timerPending) := by
  cases s <;> simp [set_status, cancel_timeout_timer, NodeStatus.isTerminal]

/-- Witness for C6 at a concrete node: a pending timer is cancelled by
`set_status .SUCCESS` and kept by `set_status .SUSPENDED`. -/
theorem set_status_timer_cancellation_witness :
    (set_status ⟨NodeStatus.RUNNING, "", true⟩ .SUCCESS).timerPending = false ∧
    (set_status ⟨NodeStatus.RUNNING, "", true⟩ .SUSPENDED).timerPending = true :=
  ⟨(set_status_timer_cancellation ⟨NodeStatus.RUNNING, "", true⟩ .SUCCESS).2.2.1 (by decide),
   (set_status_timer_cancellation ⟨NodeStatus.RUNNING, "", true⟩ .SUSPENDED).2.2.2 (Or.inr rfl)⟩

theorem slotGet_slotSet (σ : Slots) (nm nm2 : String) (v : PyVal) :
    slotGet (slotSet σ nm v) nm2 = if nm = nm2 then some v else slotGet σ nm2 := by
  by_cases h : nm = nm2
  · simp [slotGet, slotSet, List.find?, h]
  · have hb : (nm == nm2) = false := beq_eq_false_iff_ne.mpr h
    simp [slotGet, slotSet, List.find?, hb, h]

theorem bindInLoop_overlong (parent : Slots) :
    ∀ (args : List PyVal) (decl : List String) (child : Slots),
      decl.length < args.length → bindInLoop parent decl args child = none := by
  intro args
  induction args with
  | nil => intro decl child h; simp at h
  | cons a as2 ih =>
    intro decl child h
    cases decl with
    | nil => simp [bindInLoop]
    | cons d ds =>
      simp only [bindInLoop]
      cases resolveArg parent a with
      | none => rfl
      | some v =>
        simp only []
        exact ih ds _ (by simpa using Nat.lt_of_succ_lt_succ h)

theorem bindInLoop_ok (parent : Slots) :
    ∀ (args : List PyVal) (decl : List String) (child : Slots),
      args.length ≤ decl.length →
      (∀ a ∈ args, resolveArg parent a ≠ none) →
      ∃ s2, bindInLoop parent decl args child = some s2 ∧
        (((decl.take args.length).map pyAttrName).Nodup →
          ∀ (i : Nat) (d2 : String) (a2 : PyVal), decl[i]? = some d2 → args[i]? = some a2 →
            slotGet s2 (pyAttrName d2) = resolveArg parent a2) ∧
        (∀ nm, nm ∉ (decl.take args.length).map pyAttrName →
          slotGet s2 nm = slotGet child nm) := by
  intro args
  induction args with
  | nil =>
    intro decl child _ _
    refine ⟨child, ?_, ?_, ?_⟩
    · cases decl <;> rfl
    · intro _ i d2 a2 _ ha; simp at ha
    · intro nm _; rfl
  | cons a as2 ih =>
    intro decl child hle hres
    cases decl with
    | nil => simp at hle
    | cons d ds =>
      have hra : resolveArg parent a ≠ none := hres a (by simp)
      obtain ⟨v, hv⟩ := Option.ne_none_iff_exists'.mp hra
      have hle2 : as2.length ≤ ds.length := Nat.le_of_succ_le_succ hle
      obtain ⟨s2, hs2, hpt, hfr⟩ :=
        ih ds (slotSet child (pyAttrName d) v) hle2 (fun a2 ha2 => hres a2 (by simp [ha2]))
      refine ⟨s2, ?_, ?_, ?_⟩
      · simp only [bindInLoop, hv]; exact hs2
      · intro hnd i d2 a2 hd2 ha2
        have htake : (d :: ds).take (a :: as2).length =
            d :: ds.take as2.length := by simp [List.take]
        rw [htake] at hnd
        simp only [List.map_cons, List.nodup_cons] at hnd
        cases i with
        | zero =>
          simp only [List.getElem?_cons_zero, Option.some.injEq] at hd2 ha2
          subst hd2; subst ha2
          rw [hfr (pyAttrName d) hnd.1, slotGet_slotSet]
          simp [hv]
        | succ j =>
          simp only [List.getElem?_cons_succ] at hd2 ha2
          exact hpt hnd.2 j d2 a2 hd2 ha2
      · intro nm hnm
        have htake : (d :: ds).take (a :: as2).length =
            d :: ds.take as2.length := by simp [List.take]
        rw [htake] at hnm
        simp only [List.map_cons, List.mem_cons, not_or] at hnm
        rw [hfr nm hnm.2, slotGet_slotSet]
        simp [Ne.symm hnm.1]

/-- Counterexample to C7 as stated: with one declared input and two call
arguments, the source code (controlNode.py line 67 indexes
`get_in_params()[i]` for every call argument) raises `IndexError` instead of
binding over the shorter list as the spec-modelled behaviour does. -/
theorem bind_in_params_arity_counterexample :
    (bind_in_params [] [] ["?x"] [.pint 1, .pint 2]).2 = none ∧
    specBindInShorter [] [] ["?x"] [.pint 1, .pint 2] = some [("_x", .pint 1)] ∧
    (bind_in_params [] [] ["?x"] [.pint 1, .pint 2]).2 ≠
      specBindInShorter [] [] ["?x"] [.pint 1, .pint 2] := by
  refine ⟨rfl, rfl, ?_⟩; decide

/-- C7 (amended): when the number of call arguments differs from the child's
declared input count a warning is logged; binding then proceeds positionally
over the call-argument list — it succeeds when that list is no longer than the
declaration (assigning literals directly and resolving `?`-prefixed arguments
from the parent's slot of that name), and raises `IndexError` (modelled as
`none`) when the call list is strictly longer than the declaration. -/
theorem bind_in_params_behaviour (parent child : Slots) (decl : List String)
    (args : List PyVal) :
    (bind_in_params parent child decl args).1 = (args.length != decl.length) ∧
    (decl.length < args.length → (bind_in_params parent child decl args).2 = none) ∧
    (args.length ≤ decl.length →
      (∀ a ∈ args, resolveArg parent a ≠ none) →
      ∃ s2, (bind_in_params parent child decl args).2 = some s2 ∧
        (((decl.take args.length).map pyAttrName).Nodup →
          ∀ (i : Nat) (d2 : String) (a2 : PyVal), decl[i]? = some d2 → args[i]? = some a2 →
            slotGet s2 (pyAttrName d2) = resolveArg parent a2) ∧
        (∀ nm, nm ∉ (decl.take args.length).map pyAttrName →
          slotGet s2 nm = slotGet child nm)) := by
  refine ⟨rfl, ?_, ?_⟩
  · intro h; exact bindInLoop_overlong parent args decl child h
  · intro hle hres; exact bindInLoop_ok parent args decl child hle hres

/-- Witness for C7 (amended) at a concrete binding: parent slot `_y` holds 7,
the child declares inputs `?a ?b`, and the call passes the reference `?y` and
the literal 3. -/
theorem bind_in_params_behaviour_witness :
    ∃ s2, (bind_in_params [("_y", PyVal.pint 7)] [] ["?a", "?b"]
        [.pstr "?y", .pint 3]).2 = some s2 ∧
      ((((["?a", "?b"] : List String).take 2).map pyAttrName).Nodup →
        ∀ (i : Nat) (d2 : String) (a2 : PyVal),
          (["?a", "?b"] : List String)[i]? = some d2 →
          ([.pstr "?y", .pint 3] : List PyVal)[i]? = some a2 →
          slotGet s2 (pyAttrName d2) = resolveArg [("_y", PyVal.pint 7)] a2) ∧
      (∀ nm, nm ∉ ((["?a", "?b"] : List String).take 2).map pyAttrName →
        slotGet s2 nm = slotGet [] nm) :=
  (bind_in_params_behaviour [("_y", PyVal.pint 7)] [] ["?a", "?b"]
      [.pstr "?y", .pint 3]).2.2 (by decide) (by decide)

theorem bindOutLoop_spec (childSlots : Slots) (callOut : List String) :
    ∀ (ds : List String) (i : Nat) (parent : Slots) (acc : List BindWarning)
      (p2 : Slots) (ws : List BindWarning),
      bindOutLoop childSlots callOut ds i parent acc = some (p2, ws) →
      (∀ nm, slotGet p2 nm = slotGet parent nm ∨
        ∃ v, slotGet p2 nm = some v ∧ v ≠ .vnone) ∧
      (∀ (j : Nat) (d : String), ds[j]? = some d →
        slotGet childSlots (pyAttrName d) = some .vnone →
        BindWarning.unsetOutput (i + j) ∈ ws) ∧
      (∀ w ∈ acc, w ∈ ws) := by
  intro ds
  induction ds with
  | nil =>
    intro i parent acc p2 ws h
    simp only [bindOutLoop, Option.some.injEq, Prod.mk.injEq] at h
    refine ⟨?_, ?_, ?_⟩
    · intro nm; left; rw [h.1]
    · intro j d hd; simp at hd
    · intro w hw; rw [← h.2]; simpa using hw
  | cons d ds2 ih =>
    intro i parent acc p2 ws h
    simp only [bindOutLoop] at h
    cases hg : slotGet childSlots (pyAttrName d) with
    | none => rw [hg] at h; exact absurd h (by simp)
    | some v =>
      rw [hg] at h
      dsimp only at h
      by_cases hv : v = .vnone
      · rw [if_pos hv] at h
        obtain ⟨h1, h2, h3⟩ := ih (i + 1) parent (.unsetOutput i :: acc) p2 ws h
        refine ⟨h1, ?_, fun w hw => h3 w (by simp [hw])⟩
        intro j d2 hd2 hvn
        cases j with
        | zero =>
          simp only [List.getElem?_cons_zero, Option.some.injEq] at hd2
          subst hd2
          simpa using h3 (.unsetOutput i) (by simp)
        | succ k =>
          simp only [List.getElem?_cons_succ] at hd2
          have := h2 k d2 hd2 hvn
          simpa [Nat.add_assoc, Nat.add_comm 1 k] using this
      · rw [if_neg hv] at h
        cases hco : callOut[i]? with
        | none =>
          rw [hco] at h
          obtain ⟨h1, h2, h3⟩ := ih (i + 1) parent (.outputNotProvided i :: acc) p2 ws h
          refine ⟨h1, ?_, fun w hw => h3 w (by simp [hw])⟩
          intro j d2 hd2 hvn
          cases j with
          | zero =>
            simp only [List.getElem?_cons_zero, Option.some.injEq] at hd2
            subst hd2
            rw [hg] at hvn
            exact absurd (Option.some.inj hvn) hv
          | succ k =>
            simp only [List.getElem?_cons_succ] at hd2
            have := h2 k d2 hd2 hvn
            simpa [Nat.add_assoc, Nat.add_comm 1 k] using this
        | some co =>
          rw [hco] at h
          obtain ⟨h1, h2, h3⟩ := ih (i + 1) (slotSet parent (pyAttrName co) v) acc p2 ws h
          refine ⟨?_, ?_, h3⟩
          · intro nm
            rcases h1 nm with h1a | ⟨v2, hv2, hv2n⟩
            · rw [h1a, slotGet_slotSet]
              by_cases he : pyAttrName co = nm
              · right; exact ⟨v, by simp [he], hv⟩
              · left; simp [he]
            · right; exact ⟨v2, hv2, hv2n⟩
          · intro j d2 hd2 hvn
            cases j with
            | zero =>
              simp only [List.getElem?_cons_zero, Option.some.injEq] at hd2
              subst hd2
              rw [hg] at hvn
              exact absurd (Option.some.inj hvn) hv
            | succ k =>
              simp only [List.getElem?_cons_succ] at hd2
              have := h2 k d2 hd2 hvn
              simpa [Nat.add_assoc, Nat.add_comm 1 k] using this

/-- C10: during output binding, a declared child output slot whose value is
`None` is reported with a warning and skipped, and every parent slot after the
binding either keeps its old value or holds a non-`None` child output — the
value `None` is never transferred from a child output into a parent slot. -/
theorem bind_out_params_none_never_transferred
    (parent childSlots : Slots) (declOut callOut : List String)
    (p2 : Slots) (ws : List BindWarning)
    (h : bind_out_params parent childSlots declOut callOut = some (p2, ws)) :
    (∀ nm, slotGet p2 nm = slotGet parent nm ∨
      ∃ v, slotGet p2 nm = some v ∧ v ≠ .vnone) ∧
    (∀ (i : Nat) (d : String), declOut[i]? = some d →
      slotGet childSlots (pyAttrName d) = some .vnone →
      BindWarning.unsetOutput i ∈ ws) := by
  obtain ⟨h1, h2, _⟩ := bindOutLoop_spec childSlots callOut declOut 0 parent [] p2 ws h
  exact ⟨h1, fun i d hd hv => by simpa using h2 i d hd hv⟩

/-- Witness for C10 at a concrete binding: the child declares outputs
`?z ?w`, left `?z` unset (`None`) and wrote 5 into `?w`; the parent receives 5
in `_b`, keeps `_a`, and a warning is reported for position 0. -/
theorem bind_out_params_none_never_transferred_witness :
    (∀ nm, slotGet [("_b", PyVal.pint 5), ("_a", PyVal.pstr "old")] nm =
        slotGet [("_a", PyVal.pstr "old")] nm ∨
      ∃ v, slotGet [("_b", PyVal.pint 5), ("_a", PyVal.pstr "old")] nm = some v ∧
        v ≠ .vnone) ∧
    (∀ (i : Nat) (d : String), (["?z", "?w"] : List String)[i]? = some d →
      slotGet [("_z", PyVal.vnone), ("_w", PyVal.pint 5)] (pyAttrName d) =
        some .vnone →
      BindWarning.unsetOutput i ∈ [BindWarning.unsetOutput 0]) :=
  bind_out_params_none_never_transferred [("_a", PyVal.pstr "old")]
    [("_z", PyVal.vnone), ("_w", PyVal.pint 5)] ["?z", "?w"] ["?a", "?b"]
    [("_b", PyVal.pint 5), ("_a", PyVal.pstr "old")] [BindWarning.unsetOutput 0]
    (by decide)

/-- C5: after a child tick, the registered contingency handlers are examined
in registration order and exactly the first entry whose class pattern, status
set and message pattern all match is invoked; entries after the first match
are not invoked, and no handler runs when no entry matches. -/
theorem apply_contingencies_first_match (hs : List ContingencyHandlerEntry)
    (cls : String) (st : NodeStatus) (msg : String) :
    (∀ (i : Nat) (h : ContingencyHandlerEntry), hs[i]? = some h →
      contingencyHandlerMatches h cls st msg = true →
      (∀ (j : Nat) (h2 : ContingencyHandlerEntry), j < i → hs[j]? = some h2 →
        contingencyHandlerMatches h2 cls st msg = false) →
      apply_contingencies hs cls st msg = some h.funcName) ∧
    (apply_contingencies hs cls st msg = none ↔
      ∀ h ∈ hs, contingencyHandlerMatches h cls st msg = false) := by
  induction hs with
  | nil => exact ⟨fun i h hi => by simp at hi, by simp [apply_contingencies]⟩
  | cons h0 t ih =>
    constructor
    · intro i h hi hm hfirst
      cases i with
      | zero =>
        simp only [List.getElem?_cons_zero, Option.some.injEq] at hi
        subst hi
        simp [apply_contingencies, hm]
      | succ k =>
        simp only [List.getElem?_cons_succ] at hi
        have h0f : contingencyHandlerMatches h0 cls st msg = false :=
          hfirst 0 h0 (Nat.succ_pos k) (by simp)
        simp only [apply_contingencies, h0f, Bool.false_eq_true, if_false]
        exact ih.1 k h hi hm
          (fun j h2 hj hj2 =>
            hfirst (j + 1) h2 (Nat.succ_lt_succ hj) (by simpa using hj2))
    · simp only [apply_contingencies]
      by_cases h0m : contingencyHandlerMatches h0 cls st msg = true
      · simp [h0m]
      · simp only [Bool.not_eq_true] at h0m
        simp [h0m, ih.2]

/-- Witness for C5 at a concrete dispatch: with two registered handlers whose
class patterns use `*` and whose message patterns use `?` and `*`, the first
matching registration (`h1`, matching class `FooBar` with pattern `Foo*` and
message `XYZ` with pattern `X?Z`) is the one invoked. -/
theorem apply_contingencies_first_match_witness :
    apply_contingencies
      [⟨"Foo*", [NodeStatus.FAILURE], "X?Z", "h1"⟩,
       ⟨"*", [NodeStatus.FAILURE, NodeStatus.ABORTED], "*", "h2"⟩]
      "FooBar" NodeStatus.FAILURE "XYZ" = some "h1" :=
  (apply_contingencies_first_match
      [⟨"Foo*", [NodeStatus.FAILURE], "X?Z", "h1"⟩,
       ⟨"*", [NodeStatus.FAILURE, NodeStatus.ABORTED], "*", "h2"⟩]
      "FooBar" NodeStatus.FAILURE "XYZ").1 0
    ⟨"Foo*", [NodeStatus.FAILURE], "X?Z", "h1"⟩ rfl (by decide)
    (fun j h2 hj => absurd hj (by simp))

theorem action_run_times_sep (userTick : NodeCore → NodeCore) (tt : Int) :
    ∀ (ts : List Int) (s : ActionState), s.throttleMs = some tt →
      (∀ t0, (action_run_times userTick s ts).head? = some t0 →
        tt ≤ t0 - s.lastTs) ∧
      List.Chain' (fun a b => tt ≤ b - a) (action_run_times userTick s ts) := by
  intro ts
  induction ts with
  | nil =>
    intro s _
    exact ⟨fun t0 h => by simp [action_run_times] at h, by simp [action_run_times]⟩
  | cons t ts2 ih =>
    intro s hth
    by_cases hp : tt ≤ t - s.lastTs
    · by_cases hst : s.core.status = .IDLE ∨ s.core.status = .RUNNING
      · have hat : action_on_tick userTick t s =
            ({ s with core := userTick s.core, lastTs := t }, true) := by
          simp [action_on_tick, hth, hp, hst]
        have hrt : action_run_times userTick s (t :: ts2) =
            t :: action_run_times userTick
              { s with core := userTick s.core, lastTs := t } ts2 := by
          simp [action_run_times, hat]
        obtain ⟨ihh, ihc⟩ := ih { s with core := userTick s.core, lastTs := t } hth
        refine ⟨?_, ?_⟩
        · intro t0 h0
          rw [hrt] at h0
          simp only [List.head?_cons, Option.some.injEq] at h0
          subst h0
          exact hp
        · rw [hrt, List.chain'_cons']
          exact ⟨fun y hy => by simpa using ihh y hy, ihc⟩
      · have hat : action_on_tick userTick t s = (s, false) := by
          simp [action_on_tick, hth, hp, hst]
        have hrt : action_run_times userTick s (t :: ts2) =
            action_run_times userTick s ts2 := by
          simp [action_run_times, hat]
        rw [hrt]
        exact ih s hth
    · have hat : action_on_tick userTick t s = (s, false) := by
        simp [action_on_tick, hth, hp]
      have hrt : action_run_times userTick s (t :: ts2) =
          action_run_times userTick s ts2 := by
        simp [action_run_times, hat]
      rw [hrt]
      exact ih s hth

/-- C8: for an `ActionNode` with throttle `T`, a tick arriving before `T`
milliseconds have elapsed since the last `on_tick` invocation is silently
skipped with the whole state (in particular the status) unchanged; the user
`on_tick` runs only when the status is `IDLE` or `RUNNING`; and over any
sequence of engine ticks, consecutive `on_tick` invocations are separated by
at least `T` milliseconds. -/
theorem action_throttle_behaviour (userTick : NodeCore → NodeCore) (tt : Int) :
    (∀ (now : Int) (s : ActionState), s.throttleMs = some tt →
      now - s.lastTs < tt → action_on_tick userTick now s = (s, false)) ∧
    (∀ (now : Int) (s : ActionState), (action_on_tick userTick now s).2 = true →
      s.core.status = .IDLE ∨ s.core.status = .RUNNING) ∧
    (∀ (ts : List Int) (s : ActionState), s.throttleMs = some tt →
      List.Chain' (fun a b => tt ≤ b - a) (action_run_times userTick s ts)) := by
  refine ⟨?_, ?_, ?_⟩
  · intro now s hth hlt
    have hp : ¬tt ≤ now - s.lastTs := not_le.mpr hlt
    simp [action_on_tick, hth, hp]
  · intro now s hran
    by_cases hst : s.core.status = .IDLE ∨ s.core.status = .RUNNING
    · exact hst
    · exfalso
      cases hth2 : s.throttleMs with
      | none => simp [action_on_tick, hth2, hst] at hran
      | some t2 =>
        by_cases hp : t2 ≤ now - s.lastTs
        · simp [action_on_tick, hth2, hp, hst] at hran
        · simp [action_on_tick, hth2, hp] at hran
  · intro ts s hth
    exact (action_run_times_sep userTick tt ts s hth).2

/-- Witness for C8 at a concrete trace: throttle 100 ms, engine ticks at
times 0, 50, 120, 130 and 250; the separation property of the invocation
times holds, and the tick at time 50 (only 50 ms after the invocation at 0)
leaves the state unchanged. -/
theorem action_throttle_behaviour_witness :
    List.Chain' (fun a b => (100 : Int) ≤ b - a)
      (action_run_times id ⟨⟨.IDLE, "", false⟩, some 100, -1000000⟩
        [0, 50, 120, 130, 250]) ∧
    action_on_tick id 50 ⟨⟨.RUNNING, "", false⟩, some 100, 0⟩ =
      (⟨⟨.RUNNING, "", false⟩, some 100, 0⟩, false) :=
  ⟨(action_throttle_behaviour id 100).2.2 [0, 50, 120, 130, 250]
      ⟨⟨.IDLE, "", false⟩, some 100, -1000000⟩ rfl,
   (action_throttle_behaviour id 100).1 50 ⟨⟨.RUNNING, "", false⟩, some 100, 0⟩
      rfl (by decide)⟩

theorem bindInLoop_nil_args (parent : Slots) (decl : List String) (child : Slots) :
    bindInLoop parent decl [] child = some child := by
  cases decl <;> rfl

theorem slotGet_ne_none_of_mem_keys (σ : Slots) (nm : String)
    (h : nm ∈ σ.map Prod.fst) : slotGet σ nm ≠ none := by
  induction σ with
  | nil => simp at h
  | cons a t ih =>
    simp only [List.map_cons, List.mem_cons] at h
    by_cases he : a.1 = nm
    · simp [slotGet, List.find?, he]
    · have hb : (a.1 == nm) = false := beq_eq_false_iff_ne.mpr he
      rcases h with h | h
      · exact absurd h.symm he
      · simpa [slotGet, List.find?, hb] using ih h

theorem slotGet_slotSet_ne_none (σ : Slots) (nm nm2 : String) (v : PyVal)
    (h : slotGet σ nm ≠ none) : slotGet (slotSet σ nm2 v) nm ≠ none := by
  rw [slotGet_slotSet]
  by_cases he : nm2 = nm <;> simp [he, h]

theorem slotGet_childTickSlots_ne_none (sp : ChildSpec) (nm : String) :
    ∀ (σ : Slots), slotGet σ nm ≠ none →
      slotGet (childTickSlots sp σ) nm ≠ none := by
  unfold childTickSlots
  generalize sp.outParams.zip sp.outVals = l
  induction l with
  | nil => intro σ h; simpa using h
  | cons pv t ih =>
    intro σ h
    simp only [List.foldl_cons]
    exact ih _ (slotGet_slotSet_ne_none σ nm _ pv.2 h)

theorem slotGet_childInitSlots_ne_none (sp : ChildSpec) (d : String)
    (h : d ∈ sp.inParams ++ sp.outParams) :
    slotGet (childInitSlots sp) (pyAttrName d) ≠ none := by
  apply slotGet_ne_none_of_mem_keys
  simp only [childInitSlots, List.map_map]
  exact List.mem_map.mpr ⟨d, h, rfl⟩

theorem bindOutLoop_total (childSlots : Slots) (callOut : List String) :
    ∀ (ds : List String) (i : Nat) (parent : Slots) (acc : List BindWarning),
      (∀ d ∈ ds, slotGet childSlots (pyAttrName d) ≠ none) →
      bindOutLoop childSlots callOut ds i parent acc ≠ none := by
  intro ds
  induction ds with
  | nil => intro i parent acc _; simp [bindOutLoop]
  | cons d t ih =>
    intro i parent acc h
    have hd := h d (by simp)
    obtain ⟨v, hv⟩ := Option.ne_none_iff_exists'.mp hd
    have ht : ∀ d2 ∈ t, slotGet childSlots (pyAttrName d2) ≠ none :=
      fun d2 hd2 => h d2 (by simp [hd2])
    simp only [bindOutLoop, hv]
    by_cases hvn : v = .vnone
    · rw [if_pos hvn]; exact ih _ _ _ ht
    · rw [if_neg hvn]
      cases callOut[i]? <;> exact ih _ _ _ ht

theorem bind_out_params_total (parent childSlots : Slots)
    (declOut callOut : List String)
    (h : ∀ d ∈ declOut, slotGet childSlots (pyAttrName d) ≠ none) :
    ∃ ps ws, bind_out_params parent childSlots declOut callOut = some (ps, ws) := by
  have := bindOutLoop_total childSlots callOut declOut 0 parent [] h
  cases hb : bindOutLoop childSlots callOut declOut 0 parent [] with
  | none => exact absurd hb this
  | some r => exact ⟨r.1, r.2, by rw [bind_out_params, hb]⟩

/-- C9: ticking a `SequenceNode` whose child list is empty sets its status to
`RUNNING` (leaving it there if it already is) and changes nothing else: no
event is emitted (no child constructed, ticked or destroyed), and the cursor,
contingency message, timer and parameter slots are unchanged; in particular
the status does not become `SUCCESS`. -/
theorem seq_empty_children_tick (d : SeqState → SeqState) (s0 : SeqState)
    (h : s0.children = []) :
    seqTick d s0 =
      some ({ s0 with core := { s0.core with status := .RUNNING } }, []) ∧
    NodeStatus.RUNNING ≠ NodeStatus.SUCCESS := by
  obtain ⟨⟨st, msg, tp⟩, p, ch, ins, sl⟩ := s0
  simp only at h
  subst h
  refine ⟨?_, by decide⟩
  by_cases hst : st = NodeStatus.RUNNING
  · subst hst
    simp [seqTick]
  · simp [seqTick, set_status, hst]

/-- Witness for C9 at a concrete childless sequence. -/
theorem seq_empty_children_tick_witness :
    seqTick (fun t => t) (seqInit [] [("_x", PyVal.pint 4)]) =
      some ({ seqInit [] [("_x", PyVal.pint 4)] with
        core := { (seqInit [] [("_x", PyVal.pint 4)]).core with status := .RUNNING } },
        []) :=
  (seq_empty_children_tick (fun t => t) (seqInit [] [("_x", PyVal.pint 4)]) rfl).1

/-- C4: output binding happens exactly on a child that finished `SUCCESS` and
never on `FIXED`.  Conjuncts: (1) `fix_current_child` sets the current child
instance to status `FIXED` with empty contingency message; (2) when the
post-dispatch child status is `FIXED`, the decision step releases the child
and advances the cursor while the parent's slots are untouched (no output
binding); (3) when it is `SUCCESS`, the decision step writes the slots
produced by `bind_out_params` before releasing and advancing; (4) on
`FAILURE`/`ABORTED` no output binding happens either. -/
theorem seq_fixed_skips_output_binding :
    (∀ (s : SeqState) (c : ChildInst) (sp : ChildSpec),
      s.children[s.ptr]? = some sp → s.inst = some c →
      fix_current_child s =
        some { s with inst := some { c with status := .FIXED, message := "" } }) ∧
    (∀ (s : SeqState) (c : ChildInst) (sp : ChildSpec),
      s.core.status = .RUNNING → s.children[s.ptr]? = some sp → s.inst = some c →
      c.status = .FIXED → s.ptr + 1 < s.children.length →
      seqTickPost s = some ({ s with inst := none, ptr := s.ptr + 1 },
        [SeqEvent.delete s.ptr])) ∧
    (∀ (s : SeqState) (c : ChildInst) (sp : ChildSpec) (ps : Slots)
        (ws : List BindWarning),
      s.core.status = .RUNNING → s.children[s.ptr]? = some sp → s.inst = some c →
      c.status = .SUCCESS →
      bind_out_params s.slots c.slots sp.outParams sp.callOutParams = some (ps, ws) →
      s.ptr + 1 < s.children.length →
      seqTickPost s = some ({ s with slots := ps, inst := none, ptr := s.ptr + 1 },
        [SeqEvent.delete s.ptr])) ∧
    (∀ (s : SeqState) (c : ChildInst) (sp : ChildSpec),
      s.core.status = .RUNNING → s.children[s.ptr]? = some sp → s.inst = some c →
      c.status = .FAILURE ∨ c.status = .ABORTED →
      seqTickPost s = some
        ({ s with
            core := (set_contingency_message (set_status s.core c.status) c.message),
            inst := none },
          [SeqEvent.delete s.ptr])) := by
  refine ⟨?_, ?_, ?_, ?_⟩
  · intro s c sp hsp hinst
    simp [fix_current_child, hsp, hinst]
  · intro s c sp hst hsp hinst hcs hlt
    simp [seqTickPost, hst, hsp, hinst, hcs, hlt, seqFinalBlock]
  · intro s c sp ps ws hst hsp hinst hcs hb hlt
    simp [seqTickPost, hst, hsp, hinst, hcs, hb, hlt, seqFinalBlock]
  · intro s c sp hst hsp hinst hcs
    rcases hcs with hcs | hcs <;>
      simp [seqTickPost, hst, hsp, hinst, hcs, seqFinalBlock, set_status,
        cancel_timeout_timer, set_contingency_message]

/-- Witness for C4 at a concrete state: a sequence of two children whose
current child instance finished `FIXED`; the decision step advances without
touching the parent slot `_p`, and `fix_current_child` produces exactly that
`FIXED` instance. -/
theorem seq_fixed_skips_output_binding_witness :
    fix_current_child
      ⟨⟨.RUNNING, "", false⟩, 0,
        [⟨"A", [], [], [], [], .FAILURE, "E", []⟩, ⟨"B", [], [], [], [], .SUCCESS, "", []⟩],
        some ⟨.FAILURE, "E", []⟩, [("_p", PyVal.pint 1)]⟩ =
      some ⟨⟨.RUNNING, "", false⟩, 0,
        [⟨"A", [], [], [], [], .FAILURE, "E", []⟩, ⟨"B", [], [], [], [], .SUCCESS, "", []⟩],
        some ⟨.FIXED, "", []⟩, [("_p", PyVal.pint 1)]⟩ ∧
    seqTickPost
      ⟨⟨.RUNNING, "", false⟩, 0,
        [⟨"A", [], [], [], [], .FAILURE, "E", []⟩, ⟨"B", [], [], [], [], .SUCCESS, "", []⟩],
        some ⟨.FIXED, "", []⟩, [("_p", PyVal.pint 1)]⟩ =
      some (⟨⟨.RUNNING, "", false⟩, 1,
        [⟨"A", [], [], [], [], .FAILURE, "E", []⟩, ⟨"B", [], [], [], [], .SUCCESS, "", []⟩],
        none, [("_p", PyVal.pint 1)]⟩, [SeqEvent.delete 0]) :=
  ⟨seq_fixed_skips_output_binding.1 _ ⟨.FAILURE, "E", []⟩
      ⟨"A", [], [], [], [], .FAILURE, "E", []⟩ rfl rfl,
   seq_fixed_skips_output_binding.2.1 _ ⟨.FIXED, "", []⟩
      ⟨"A", [], [], [], [], .FAILURE, "E", []⟩ rfl rfl rfl rfl (by decide)⟩

theorem mem_of_getElem_eq_some {α : Type} {l : List α} {i : Nat} {a : α}
    (h : l[i]? = some a) : a ∈ l := by
  obtain ⟨hlt, rfl⟩ := List.getElem?_eq_some.mp h
  exact List.getElem_mem hlt

theorem seqTick_success_step (cs : List ChildSpec) (k : Nat) (s : SeqState)
    (hmid : SeqMid cs k s) (hk : k < cs.length) (sp : ChildSpec)
    (hsp : cs[k]? = some sp) (hst : sp.tickStatus = .SUCCESS)
    (hargs : sp.callInParams = []) :
    ∃ s2, seqTick (fun t => t) s =
        some (s2, [.create k, .tick k, .delete k]) ∧
      s2.children = cs ∧ s2.inst = none ∧
      (k + 1 < cs.length →
        s2.core = { s.core with status := .RUNNING } ∧ s2.ptr = k + 1) ∧
      (¬ k + 1 < cs.length →
        s2.core = ⟨.SUCCESS, sp.tickMessage, false⟩ ∧ s2.ptr = k) := by
  obtain ⟨hs01, hptr, hch, hinst⟩ := hmid
  obtain ⟨⟨st, msg, tp⟩, p, ch, ins, sl⟩ := s
  simp only at hs01 hptr hch hinst
  subst hptr; subst hch; subst hinst
  have hcc : createChild sl sp = some ⟨.IDLE, "", childInitSlots sp⟩ := by
    simp [createChild, bind_in_params, hargs, bindInLoop_nil_args]
  obtain ⟨ps, ws, hps⟩ :
      ∃ ps ws, bind_out_params sl (childTickSlots sp (childInitSlots sp))
        sp.outParams sp.callOutParams = some (ps, ws) := by
    apply bind_out_params_total
    intro d hd
    exact slotGet_childTickSlots_ne_none sp _ _
      (slotGet_childInitSlots_ne_none sp d (by simp [hd]))
  have hne2 : ¬ ch = [] := by
    intro hc; subst hc; simp at hk
  have hlen : ¬ ch.length = 0 := by omega
  by_cases hadv : p + 1 < ch.length
  · refine ⟨⟨⟨.RUNNING, msg, tp⟩, p + 1, ch, none, ps⟩, ?_, rfl, rfl,
      fun _ => ⟨rfl, rfl⟩, fun hc => absurd hadv hc⟩
    rcases hs01 with h | h <;> subst h <;>
      simp [seqTick, seqTickPost, seqFinalBlock, hsp, hcc, hst, hps, hadv,
        set_status, cancel_timeout_timer, tickChildInst, hlen, hne2]
  · refine ⟨⟨⟨.SUCCESS, sp.tickMessage, false⟩, p, ch, none, ps⟩, ?_, rfl, rfl,
      fun hc => absurd hc hadv, fun _ => ⟨rfl, rfl⟩⟩
    rcases hs01 with h | h <;> subst h <;>
      simp [seqTick, seqTickPost, seqFinalBlock, hsp, hcc, hst, hps, hadv,
        set_status, cancel_timeout_timer, set_contingency_message,
        tickChildInst, hlen, hne2]

theorem seqTick_failure_step (cs : List ChildSpec) (k : Nat) (s : SeqState)
    (hmid : SeqMid cs k s) (hk : k < cs.length) (sp : ChildSpec)
    (hsp : cs[k]? = some sp)
    (hfail : sp.tickStatus = .FAILURE ∨ sp.tickStatus = .ABORTED)
    (hargs : sp.callInParams = []) :
    ∃ s2, seqTick (fun t => t) s =
        some (s2, [.create k, .tick k, .delete k]) ∧
      s2.core = ⟨sp.tickStatus, sp.tickMessage, false⟩ ∧
      s2.children = cs ∧ s2.inst = none ∧ s2.ptr = k ∧ s2.slots = s.slots := by
  obtain ⟨hs01, hptr, hch, hinst⟩ := hmid
  obtain ⟨⟨st, msg, tp⟩, p, ch, ins, sl⟩ := s
  simp only at hs01 hptr hch hinst
  subst hptr; subst hch; subst hinst
  have hcc : createChild sl sp = some ⟨.IDLE, "", childInitSlots sp⟩ := by
    simp [createChild, bind_in_params, hargs, bindInLoop_nil_args]
  have hne2 : ¬ ch = [] := by
    intro hc; subst hc; simp at hk
  have hlen : ¬ ch.length = 0 := by omega
  refine ⟨⟨⟨sp.tickStatus, sp.tickMessage, false⟩, p, ch, none, sl⟩, ?_, rfl,
    rfl, rfl, rfl, rfl⟩
  rcases hfail with hf | hf <;> rcases hs01 with h | h <;> subst h <;>
    simp [seqTick, seqTickPost, seqFinalBlock, hsp, hcc, hf, set_status,
      cancel_timeout_timer, set_contingency_message, tickChildInst, hlen, hne2]

theorem seqRun_success_seg (cs : List ChildSpec) :
    ∀ (j k : Nat) (s : SeqState), SeqMid cs k s → k + j ≤ cs.length →
      (∀ (idx : Nat) (spx : ChildSpec), k ≤ idx → idx < k + j →
        cs[idx]? = some spx →
        spx.tickStatus = .SUCCESS ∧ spx.callInParams = []) →
      ∃ s2, seqRun (fun t => t) j s =
          some (s2,
            (List.range' k j).flatMap (fun i => [.create i, .tick i, .delete i])) ∧
        (k + j < cs.length → SeqMid cs (k + j) s2) ∧
        (k + j = cs.length → 0 < j →
          s2.core.status = .SUCCESS ∧ s2.inst = none ∧ s2.children = cs) := by
  intro j
  induction j with
  | zero =>
    intro k s hmid _ _
    refine ⟨s, by simp [seqRun, List.range'], ?_, ?_⟩
    · intro _; simpa using hmid
    · intro _ h; exact absurd h (by omega)
  | succ j ih =>
    intro k s hmid hle hsucc
    have hk : k < cs.length := by omega
    have hsp : cs[k]? = some cs[k] := List.getElem?_eq_getElem hk
    obtain ⟨hts, hcp⟩ := hsucc k cs[k] (le_refl k) (by omega) hsp
    obtain ⟨s2, heq, hch2, hinst2, hadv, hfin⟩ :=
      seqTick_success_step cs k s hmid hk cs[k] hsp hts hcp
    by_cases hadvc : k + 1 < cs.length
    · obtain ⟨hcore2, hp2⟩ := hadv hadvc
      have hmid2 : SeqMid cs (k + 1) s2 :=
        ⟨Or.inr (by rw [hcore2]), hp2, hch2, hinst2⟩
      obtain ⟨s3, heq3, hmid3, hfin3⟩ := ih (k + 1) s2 hmid2 (by omega)
        (fun idx spx h1 h2 hx => hsucc idx spx (by omega) (by omega) hx)
      refine ⟨s3, ?_, ?_, ?_⟩
      · simp only [seqRun, heq, heq3]
        rw [List.range'_succ k j 1, List.flatMap_cons]
      · intro h
        have := hmid3 (by omega)
        rwa [show k + 1 + j = k + (j + 1) by omega] at this
      · intro hlen _
        have := hfin3 (by omega) (by omega)
        exact this
    · have hk1 : k + 1 = cs.length := by omega
      have hj0 : j = 0 := by omega
      subst hj0
      obtain ⟨hcore2, hp2⟩ := hfin hadvc
      refine ⟨s2, ?_, ?_, ?_⟩
      · simp only [seqRun, heq]
        rw [List.range'_succ k 0 1]
        simp [List.range']
      · intro h; exact absurd h (by omega)
      · intro _ _
        exact ⟨by rw [hcore2], hinst2, hch2⟩

/-- C1: for a `SequenceNode` whose children each complete with `SUCCESS` on
their tick (and take no call parameters), the sequence emits, on its `k`-th
internal tick, exactly the construction, tick and destruction of child `k` —
so children are constructed, ticked and destroyed strictly in list order and
at most one child is ticked per tick of the composite — it is not yet
`SUCCESS` after any `k < n` ticks, and it finishes with `SUCCESS` after
exactly `n` internal tick steps. -/
theorem seq_all_success_run (cs : List ChildSpec) (σ : Slots)
    (hne : cs ≠ [])
    (hsucc : ∀ sp ∈ cs, sp.tickStatus = .SUCCESS)
    (hargs : ∀ sp ∈ cs, sp.callInParams = []) :
    (∀ k, k ≤ cs.length → ∃ s2, seqRun (fun t => t) k (seqInit cs σ) =
        some (s2, seqExpectedTrace k)) ∧
    (∀ k, k < cs.length → ∀ s2 ev,
      seqRun (fun t => t) k (seqInit cs σ) = some (s2, ev) →
      s2.core.status ≠ .SUCCESS) ∧
    (∃ s2, seqRun (fun t => t) cs.length (seqInit cs σ) =
        some (s2, seqExpectedTrace cs.length) ∧ s2.core.status = .SUCCESS) := by
  have hmid0 : SeqMid cs 0 (seqInit cs σ) := ⟨Or.inl rfl, rfl, rfl, rfl⟩
  have hall : ∀ (j : Nat), j ≤ cs.length →
      ∃ s2, seqRun (fun t => t) j (seqInit cs σ) =
          some (s2, seqExpectedTrace j) ∧
        (j < cs.length → SeqMid cs j s2) ∧
        (j = cs.length → 0 < j → s2.core.status = .SUCCESS) := by
    intro j hj
    obtain ⟨s2, heq, hmid, hfin⟩ := seqRun_success_seg cs j 0 (seqInit cs σ)
      hmid0 (by omega)
      (fun idx spx _ h2 hx =>
        ⟨hsucc spx (mem_of_getElem_eq_some hx), hargs spx (mem_of_getElem_eq_some hx)⟩)
    refine ⟨s2, ?_, ?_, ?_⟩
    · rw [heq, seqExpectedTrace, List.range_eq_range']
    · intro h; simpa using hmid (by omega)
    · intro h hpos; exact (hfin (by omega) hpos).1
  refine ⟨?_, ?_, ?_⟩
  · intro k hk
    obtain ⟨s2, heq, _, _⟩ := hall k hk
    exact ⟨s2, heq⟩
  · intro k hk s2 ev heq2
    obtain ⟨s3, heq, hmid, _⟩ := hall k (by omega)
    rw [heq] at heq2
    injection heq2 with hpair
    injection hpair with hs hev
    subst hs
    obtain ⟨h01, _, _, _⟩ := hmid hk
    rcases h01 with h | h <;> simp [h]
  · have hpos : 0 < cs.length := List.length_pos.mpr hne
    obtain ⟨s2, heq, _, hfin⟩ := hall cs.length (le_refl _)
    exact ⟨s2, heq, hfin rfl hpos⟩

/-- Witness for C1: a concrete three-child sequence, all children succeeding,
finishes `SUCCESS` after exactly 3 internal ticks with the in-order trace. -/
theorem seq_all_success_run_witness :
    ∃ s2, seqRun (fun t => t) 3
        (seqInit [⟨"A", [], [], [], [], .SUCCESS, "", []⟩,
          ⟨"B", [], [], [], [], .SUCCESS, "", []⟩,
          ⟨"C", [], [], [], [], .SUCCESS, "", []⟩] []) =
      some (s2, seqExpectedTrace 3) ∧ s2.core.status = .SUCCESS :=
  (seq_all_success_run [⟨"A", [], [], [], [], .SUCCESS, "", []⟩,
      ⟨"B", [], [], [], [], .SUCCESS, "", []⟩,
      ⟨"C", [], [], [], [], .SUCCESS, "", []⟩] [] (by decide)
    (by intro sp h; fin_cases h <;> rfl)
    (by intro sp h; fin_cases h <;> rfl)).2.2

theorem seqRun_append (d : SeqState → SeqState) :
    ∀ (a b : Nat) (s : SeqState),
      seqRun d (a + b) s =
        match seqRun d a s with
        | none => none
        | some (s1, ev) =>
          match seqRun d b s1 with
          | none => none
          | some (s2, ev2) => some (s2, ev ++ ev2) := by
  intro a
  induction a with
  | zero =>
    intro b s
    simp only [Nat.zero_add, seqRun]
    cases seqRun d b s with
    | none => rfl
    | some r => simp
  | succ n ih =>
    intro b s
    rw [show n + 1 + b = n + b + 1 by omega]
    simp only [seqRun]
    cases hts : seqTick d s with
    | none => rfl
    | some r =>
      obtain ⟨s1, ev⟩ := r
      simp only
      rw [ih b s1]
      cases hr : seqRun d n s1 with
      | none => rfl
      | some q =>
        obtain ⟨s2, ev2⟩ := q
        simp only
        cases seqRun d b s2 with
        | none => rfl
        | some w => simp

/-- C2: in a sequence whose children before position `i` each succeed on
their tick and whose child `i` finishes with `FAILURE` or `ABORTED` (no
contingency handler attached), after `i + 1` internal ticks the sequence has
adopted that child's status and contingency message, the failing child has
been released, the cursor still points at `i`, and no child after position
`i` is ever constructed: the whole event trace contains no `create j` with
`j > i`. -/
theorem seq_first_failure_run (cs : List ChildSpec) (σ : Slots) (i : Nat)
    (hi : i < cs.length) (sp : ChildSpec) (hsp : cs[i]? = some sp)
    (hfail : sp.tickStatus = .FAILURE ∨ sp.tickStatus = .ABORTED)
    (hpre : ∀ (j : Nat) (spj : ChildSpec), j < i → cs[j]? = some spj →
      spj.tickStatus = .SUCCESS)
    (hargs : ∀ sp2 ∈ cs, sp2.callInParams = []) :
    ∃ s2, seqRun (fun t => t) (i + 1) (seqInit cs σ) =
        some (s2, seqExpectedTrace i ++
          [SeqEvent.create i, SeqEvent.tick i, SeqEvent.delete i]) ∧
      s2.core.status = sp.tickStatus ∧ s2.core.message = sp.tickMessage ∧
      s2.inst = none ∧ s2.ptr = i ∧
      (∀ ev ∈ seqExpectedTrace i ++
          [SeqEvent.create i, SeqEvent.tick i, SeqEvent.delete i],
        ∀ j, i < j → ev ≠ SeqEvent.create j) := by
  have hmid0 : SeqMid cs 0 (seqInit cs σ) := ⟨Or.inl rfl, rfl, rfl, rfl⟩
  obtain ⟨s1, heq1, hmid1, _⟩ := seqRun_success_seg cs i 0 (seqInit cs σ)
    hmid0 (by omega)
    (fun idx spx _ h2 hx =>
      ⟨hpre idx spx (by omega) hx, hargs spx (mem_of_getElem_eq_some hx)⟩)
  have hmid1i : SeqMid cs i s1 := by
    have := hmid1 (by omega)
    simpa using this
  obtain ⟨s2, heq2, hcore2, hch2, hinst2, hp2, _⟩ :=
    seqTick_failure_step cs i s1 hmid1i hi sp hsp hfail
      (hargs sp (mem_of_getElem_eq_some hsp))
  refine ⟨s2, ?_, by rw [hcore2], by rw [hcore2], hinst2, hp2, ?_⟩
  · have h1 : seqRun (fun t => t) 1 s1 =
        some (s2, [SeqEvent.create i, SeqEvent.tick i, SeqEvent.delete i]) := by
      simp [seqRun, heq2]
    rw [seqRun_append (fun t => t) i 1 (seqInit cs σ), heq1]
    simp [h1, seqExpectedTrace, List.range_eq_range']
  · intro ev hev j hij hc
    subst hc
    simp only [seqExpectedTrace, List.mem_append, List.mem_flatMap,
      List.mem_range, List.mem_cons, List.not_mem_nil, or_false,
      SeqEvent.create.injEq, reduceCtorEq, false_or] at hev
    rcases hev with ⟨a, ha, rfl⟩ | rfl <;> omega

/-- Witness for C2: in a concrete three-child sequence whose second child
fails with message `BOOM`, after 2 internal ticks the sequence is `FAILURE`
with message `BOOM` and the third child is never constructed. -/
theorem seq_first_failure_run_witness :
    ∃ s2, seqRun (fun t => t) (1 + 1)
        (seqInit [⟨"A", [], [], [], [], .SUCCESS, "", []⟩,
          ⟨"F", [], [], [], [], .FAILURE, "BOOM", []⟩,
          ⟨"C", [], [], [], [], .SUCCESS, "", []⟩] []) =
      some (s2, seqExpectedTrace 1 ++
        [SeqEvent.create 1, SeqEvent.tick 1, SeqEvent.delete 1]) ∧
    s2.core.status = NodeStatus.FAILURE ∧ s2.core.message = "BOOM" ∧
    s2.inst = none ∧ s2.ptr = 1 ∧
    (∀ ev ∈ seqExpectedTrace 1 ++
        [SeqEvent.create 1, SeqEvent.tick 1, SeqEvent.delete 1],
      ∀ j, 1 < j → ev ≠ SeqEvent.create j) :=
  seq_first_failure_run [⟨"A", [], [], [], [], .SUCCESS, "", []⟩,
      ⟨"F", [], [], [], [], .FAILURE, "BOOM", []⟩,
      ⟨"C", [], [], [], [], .SUCCESS, "", []⟩] [] 1 (by decide)
    ⟨"F", [], [], [], [], .FAILURE, "BOOM", []⟩ rfl (Or.inl rfl)
    (by
      intro j spj hj hsp
      have hj0 : j = 0 := by omega
      subst hj0
      simp only [List.getElem?_cons_zero, Option.some.injEq] at hsp
      subst hsp
      rfl)
    (by intro sp2 h; fin_cases h <;> rfl)

/-- C3 (evaluation at the failing input): on an `ActionNode` with status
`RUNNING` and a pending timer, `abort()` merely cancels the timer — the
status stays `RUNNING` instead of becoming `ABORTED`, and no abort hook runs
(the abort logic sits in the never-invoked `ActionNode._on_abort`); a firing
timeout with the default `on_timeout` likewise leaves such a node `RUNNING`
with message `"TIMEOUT"` rather than `ABORTED`.  Only `SequenceNode`, which
overrides the internal abort path, behaves as the claim states: with a live
child, its abort cancels the timer, sets `ABORTED` and copies the child's
message. -/
theorem action_abort_timeout_failing_input :
    action_abort ⟨⟨.RUNNING, "", true⟩, none, 0⟩ =
      ⟨⟨.RUNNING, "", false⟩, none, 0⟩ ∧
    action_internal_on_timeout ⟨⟨.RUNNING, "", true⟩, none, 0⟩ =
      ⟨⟨.RUNNING, "TIMEOUT", false⟩, none, 0⟩ ∧
    NodeStatus.RUNNING ≠ NodeStatus.ABORTED ∧
    seq_internal_on_abort
      ⟨⟨.RUNNING, "", true⟩, 0, [⟨"A", [], [], [], [], .SUCCESS, "", []⟩],
        some ⟨.RUNNING, "cm", []⟩, []⟩ =
      some ⟨⟨.ABORTED, "cm", false⟩, 0, [⟨"A", [], [], [], [], .SUCCESS, "", []⟩],
        none, []⟩ :=
  ⟨rfl, rfl, by decide, rfl⟩

end CareBT

